import Mathlib

/-!
Shallow embedding of the backtesting engine (`src/backtest/mod.rs`,
`src/backtest/calculations.rs`, `src/order/mod.rs`, `src/position/mod.rs`,
`src/trade/mod.rs`).

Modelling conventions:
* `f64` prices, sizes and cash are modelled as exact rationals `ℚ`.
* `chrono::DateTime<Utc>` is modelled as an integer number of seconds;
  `chrono::Duration` as an integer number of seconds.  `Duration::num_days`
  truncates toward zero, modelled with `Int.tdiv` by 86400.
* `f64::sqrt` and `f64::powf` are abstracted as function parameters
  (`sqrtQ`, `powQ`); theorems that depend on square-root behaviour take the
  needed facts about `sqrtQ` as hypotheses (true of the IEEE sqrt on the
  exact values involved).
* `f64::INFINITY` (reachable in the Sortino ratio and profit factor) is
  modelled by the two-constructor type `FVal`.
-/

namespace Backtesting

/-- `chrono::DateTime<Utc>` as seconds. -/
abbrev Time := Int

/-- `chrono::Duration` as seconds. -/
abbrev TDuration := Int

/-- `chrono::Duration::num_days`: whole days, truncated toward zero. -/
def numDays (d : TDuration) : Int := Int.tdiv d 86400

/-- An `f64` result that may be `f64::INFINITY`. -/
inductive FVal where
  | val (q : ℚ)
  | posInf
deriving DecidableEq, Repr

/-- `types/mod.rs`: struct OHLCV. -/
structure OHLCV where
  timestamp : Time
  opn : ℚ      -- field `open` in the source (`open` is a Lean keyword)
  high : ℚ
  low : ℚ
  close : ℚ
  volume : ℚ
deriving DecidableEq, Repr

/-- `order/mod.rs`: enum OrderType. -/
inductive OrderType where
  | Market | Limit | Stop | StopLimit
deriving DecidableEq, Repr

/-- `order/mod.rs`: enum OrderSide. -/
inductive OrderSide where
  | Buy | Sell
deriving DecidableEq, Repr

/-- `order/mod.rs`: enum OrderStatus. -/
inductive OrderStatus where
  | Pending | Filled | Cancelled | PartiallyFilled
deriving DecidableEq, Repr

/-- `order/mod.rs`: struct Order. -/
structure Order where
  side : OrderSide
  order_type : OrderType
  size : ℚ
  limit : Option ℚ
  stop : Option ℚ
  sl : Option ℚ
  tp : Option ℚ
  tag : Option String
  timestamp : Time
  status : OrderStatus
  filled_size : ℚ
deriving DecidableEq, Repr

namespace Order

/-- `Order::remaining_size`. -/
def remaining_size (o : Order) : ℚ := o.size - o.filled_size

/-- `Order::is_long`. -/
def is_long (o : Order) : Bool := o.side = OrderSide.Buy && o.size > 0

/-- `Order::cancel`: set status to Cancelled only from Pending or
PartiallyFilled. -/
def cancel (o : Order) : Order :=
  match o.status with
  | OrderStatus.Pending => { o with status := OrderStatus.Cancelled }
  | OrderStatus.PartiallyFilled => { o with status := OrderStatus.Cancelled }
  | _ => o

/-- `Order::fill`: returns the updated order and the optional created trade's
fill size (the `Trade` the source builds is derived from these fields; the
claims about `fill` concern the order's own state).  A cancelled order is
returned unchanged with no trade. -/
def fill (o : Order) (fill_size : ℚ) : Order × Option ℚ :=
  if o.status = OrderStatus.Cancelled then
    (o, none)
  else
    let actual_fill_size := min fill_size o.remaining_size
    let filled' := o.filled_size + actual_fill_size
    let status' :=
      if filled' ≥ o.size then OrderStatus.Filled else OrderStatus.PartiallyFilled
    ({ o with filled_size := filled', status := status' }, some actual_fill_size)

end Order

/-- `trade/mod.rs`: struct Trade. -/
structure Trade where
  entry_bar : Nat
  entry_price : ℚ
  entry_time : Time
  exit_bar : Option Nat
  exit_price : Option ℚ
  exit_time : Option Time
  size : ℚ
  sl : Option ℚ
  tp : Option ℚ
  tag : Option String
deriving DecidableEq, Repr

namespace Trade

/-- `Trade::new`. -/
def new (entry_bar : Nat) (entry_price : ℚ) (entry_time : Time) (size : ℚ)
    (sl tp : Option ℚ) (tag : Option String) : Trade :=
  { entry_bar, entry_price, entry_time,
    exit_bar := none, exit_price := none, exit_time := none,
    size, sl, tp, tag }

/-- `Trade::is_long`. -/
def is_long (t : Trade) : Bool := t.size > 0

/-- `Trade::pl`: realized profit/loss; zero while the trade is open. -/
def pl (t : Trade) : ℚ :=
  match t.exit_price with
  | some exit_price =>
      if t.is_long then (exit_price - t.entry_price) * t.size
      else (t.entry_price - exit_price) * |t.size|
  | none => 0

/-- `Trade::duration` at clock time `now` (the source reads `Utc::now()`
for a still-open trade). -/
def durationAt (now : Time) (t : Trade) : TDuration :=
  match t.exit_time with
  | some exit_time => exit_time - t.entry_time
  | none => now - t.entry_time

/-- `Trade::close`. -/
def close (t : Trade) (exit_bar : Option Nat) (exit_price : ℚ)
    (exit_time : Time) : Trade :=
  { t with exit_bar := exit_bar, exit_price := some exit_price,
           exit_time := some exit_time }

end Trade

/-- `position/mod.rs`: struct Position. -/
structure Position where
  size : ℚ
  entry_price : ℚ
  entry_time : Time
  current_price : ℚ
  sl : Option ℚ
  tp : Option ℚ
  tag : Option String
deriving DecidableEq, Repr

namespace Position

/-- `Position::new`. -/
def new (size entry_price : ℚ) (entry_time : Time) : Position :=
  { size, entry_price, entry_time, current_price := entry_price,
    sl := none, tp := none, tag := none }

/-- `Position::update_price`. -/
def update_price (p : Position) (price : ℚ) : Position :=
  { p with current_price := price }

/-- `Position::value`: mark-to-market value. -/
def value (p : Position) : ℚ := p.size * p.current_price

end Position

/-- `backtest/mod.rs`: struct BacktestConfig. -/
structure BacktestConfig where
  initial_cash : ℚ
  commission : ℚ
  margin : ℚ
  trade_on_open : Bool
  hedging : Bool
  exclusive_orders : Bool
deriving DecidableEq, Repr

/-- The mutable fields of `struct Backtest` (the bar data and config are
passed separately since they are read-only during a run). -/
structure BState where
  current_position : Option Position
  cash : ℚ
  equity_curve : List (Time × ℚ)
  trades : List Trade
  current_bar_index : Nat
  position_entry_bar : Option Nat
deriving DecidableEq, Repr

/-- `Backtest::new`: the initial engine state. -/
def initState (cfg : BacktestConfig) : BState :=
  { current_position := none, cash := cfg.initial_cash,
    equity_curve := [], trades := [],
    current_bar_index := 0, position_entry_bar := none }

/-- `Backtest::open_position`.  The source returns `Ok(())` on every path
(insufficient funds silently skips), so the embedding is a total state
transformer. -/
def open_position (cfg : BacktestConfig) (st : BState) (size price : ℚ)
    (timestamp : Time) (current_price : ℚ) : BState :=
  let cost := size * price * (1 + cfg.commission)
  if cost > st.cash then
    st  -- Insufficient funds
  else
    let st := { st with cash := st.cash - cost }
    match st.current_position with
    | some position =>
        -- Update existing position
        let total_cost := position.size * position.entry_price + size * price
        let total_size := position.size + size
        let position := { position with entry_price := total_cost / total_size,
                                        size := total_size }
        { st with current_position := some (position.update_price current_price) }
    | none =>
        -- Create new position
        let new_position := (Position.new size price timestamp).update_price current_price
        { st with current_position := some new_position,
                  position_entry_bar := some st.current_bar_index }

/-- `Backtest::close_position`.  Also total: closing with no open position
is a no-op. -/
def close_position (cfg : BacktestConfig) (st : BState) (size price : ℚ)
    (current_bar : OHLCV) : BState :=
  match st.current_position with
  | some position =>
      let close_size := min size position.size
      let proceeds := close_size * price * (1 - cfg.commission)
      let st := { st with cash := st.cash + proceeds }
      let trade := Trade.new (st.position_entry_bar.getD 0) position.entry_price
        position.entry_time close_size none none none
      let trade := trade.close (some st.current_bar_index) price current_bar.timestamp
      let st := { st with trades := st.trades ++ [trade] }
      let position := { position with size := position.size - close_size }
      if position.size ≤ (0 : ℚ) then
        { st with current_position := none, position_entry_bar := none }
      else
        { st with current_position := some position }
  | none => st  -- No position to close - expected behavior, just skip

/-- `Backtest::process_order`. -/
def process_order (cfg : BacktestConfig) (st : BState) (order : Order)
    (bar : OHLCV) : BState :=
  let price := if cfg.trade_on_open then bar.opn else bar.close
  match order.side with
  | OrderSide.Buy => open_position cfg st order.size price bar.timestamp bar.close
  | OrderSide.Sell => close_position cfg st order.size price bar

/-- `Backtest::calculate_equity`. -/
def calculate_equity (st : BState) : ℚ :=
  st.cash + (match st.current_position with
             | some position => position.value
             | none => 0)

/-- The inner `for order in orders` loop of `Backtest::run`. -/
def processOrders (cfg : BacktestConfig) (bar : OHLCV) (st : BState)
    (orders : List Order) : BState :=
  orders.foldl (fun s o => process_order cfg s o bar) st

/-- One iteration of the bar loop in `Backtest::run`: set the bar index,
process the strategy's orders, update the open position's mark price to the
bar's close, append to the equity curve. -/
def stepBar (cfg : BacktestConfig) (st : BState) (bar : OHLCV) (index : Nat)
    (orders : List Order) : BState :=
  let st := { st with current_bar_index := index }
  let st := processOrders cfg bar st orders
  let st := { st with current_position :=
                st.current_position.map (fun p => Position.update_price p bar.close) }
  { st with equity_curve := st.equity_curve ++ [(bar.timestamp, calculate_equity st)] }

/-- The bar loop of `Backtest::run`, starting at bar index `index`.  The
strategy callback is modelled extensionally by `ords`: `ords i` is the list
of orders `strategy.next` returns at bar `i`, or `none` when the callback
fails (which aborts the run). -/
def runLoopFrom (cfg : BacktestConfig) (ords : Nat → Option (List Order)) :
    List OHLCV → Nat → BState → Option BState
  | [], _, st => some st
  | bar :: rest, index, st =>
      match ords index with
      | none => none
      | some orders => runLoopFrom cfg ords rest (index + 1) (stepBar cfg st bar index orders)

/-- The bar loop of `Backtest::run` over a whole bar sequence, from the
initial state. -/
def runLoop (cfg : BacktestConfig) (ords : Nat → Option (List Order))
    (data : List OHLCV) : Option BState :=
  runLoopFrom cfg ords data 0 (initState cfg)

/-- The engine state in the middle of bar `i` of a run, right after the
first `j` of that bar's orders have been processed (the first `i` bars have
been processed completely). -/
def midState (cfg : BacktestConfig) (ords : Nat → Option (List Order))
    (data : List OHLCV) (i j : Nat) : Option BState :=
  match runLoop cfg ords (data.take i), data[i]?, ords i with
  | some st, some bar, some orders =>
      some (processOrders cfg bar { st with current_bar_index := i } (orders.take j))
  | _, _, _ => none

/-- The per-bar fractional returns loop shared by `calculate_volatility` and
`calculate_sortino_ratio` in `calculations.rs`: for each consecutive pair, a
return is recorded only when the earlier equity is positive. -/
def dailyReturns : List (Time × ℚ) → List ℚ
  | a :: b :: rest =>
      (if a.2 > 0 then [(b.2 - a.2) / a.2] else []) ++ dailyReturns (b :: rest)
  | _ => []

/-- `Calculations::calculate_exposure_time`: the loop over the trade log,
alternating opened/closed.  Returns (in_position, position_start,
exposed_days). -/
def exposureLoop : List Trade → Bool → Time → Int → Bool × Time × Int
  | [], in_position, position_start, exposed_days =>
      (in_position, position_start, exposed_days)
  | trade :: rest, in_position, position_start, exposed_days =>
      if !in_position then
        -- Position opened
        exposureLoop rest true trade.entry_time exposed_days
      else
        -- Position closed
        match trade.exit_time with
        | some exit_time =>
            exposureLoop rest false position_start
              (exposed_days + numDays (exit_time - position_start))
        | none => exposureLoop rest false position_start exposed_days

/-- `Calculations::calculate_exposure_time`. -/
def calculate_exposure_time (data : List OHLCV) (trades : List Trade) : ℚ :=
  match data with
  | [] => 0
  | d0 :: drest =>
      let first := d0
      let last := (d0 :: drest).getLast (List.cons_ne_nil d0 drest)
      let (in_position, position_start, exposed_days) :=
        exposureLoop trades false d0.timestamp 0
      let exposed_days :=
        if in_position then exposed_days + numDays (last.timestamp - position_start)
        else exposed_days
      let total_days := numDays (last.timestamp - first.timestamp)
      if total_days > 0 then (exposed_days : ℚ) / (total_days : ℚ) else 0

/-- `Calculations::calculate_volatility` with `f64::sqrt` abstracted as
`sqrtQ`. -/
def calculate_volatility (sqrtQ : ℚ → ℚ) (equity_curve : List (Time × ℚ))
    (years : ℚ) : ℚ :=
  if equity_curve.length < 2 ∨ years ≤ 0 then 0
  else
    let returns := dailyReturns equity_curve
    if returns = [] then 0
    else
      let mean_return := returns.sum / (returns.length : ℚ)
      let variance :=
        (returns.map (fun r => (r - mean_return) ^ 2)).sum / (returns.length : ℚ)
      sqrtQ variance * sqrtQ 252

/-- The accumulator of the drawdown loop in
`Calculations::calculate_drawdown_metrics`. -/
structure DDAcc where
  max_drawdown : ℚ
  current_drawdown : ℚ
  peak_equity : ℚ
  drawdown_start : Time
  max_dd_duration : TDuration
  current_dd_duration : TDuration
  drawdowns : List ℚ
  dd_durations : List TDuration
deriving DecidableEq, Repr

/-- One iteration of the drawdown loop. -/
def ddStep (acc : DDAcc) (point : Time × ℚ) : DDAcc :=
  let timestamp := point.1
  let equity := point.2
  if equity > acc.peak_equity then
    -- New peak, end of drawdown period
    let acc :=
      if acc.current_drawdown < 0 then
        { acc with drawdowns := acc.drawdowns ++ [-acc.current_drawdown],
                   dd_durations := acc.dd_durations ++ [acc.current_dd_duration] }
      else acc
    { acc with peak_equity := equity, current_drawdown := 0,
               current_dd_duration := 0, drawdown_start := timestamp }
  else
    -- In drawdown
    let current_drawdown := (equity - acc.peak_equity) / acc.peak_equity
    let current_dd_duration := timestamp - acc.drawdown_start
    let acc := { acc with current_drawdown := current_drawdown,
                          current_dd_duration := current_dd_duration }
    if current_drawdown < acc.max_drawdown then
      { acc with max_drawdown := current_drawdown,
                 max_dd_duration := current_dd_duration }
    else acc

/-- `Calculations::calculate_drawdown_metrics`: returns
(max_drawdown, avg_drawdown, max_dd_duration, avg_dd_duration). -/
def calculate_drawdown_metrics (equity_curve : List (Time × ℚ)) :
    ℚ × ℚ × TDuration × TDuration :=
  match equity_curve with
  | c0 :: c1 :: rest =>
      let acc0 : DDAcc :=
        { max_drawdown := 0, current_drawdown := 0, peak_equity := c0.2,
          drawdown_start := c0.1, max_dd_duration := 0, current_dd_duration := 0,
          drawdowns := [], dd_durations := [] }
      let acc := (c0 :: c1 :: rest).foldl ddStep acc0
      -- Handle final drawdown if still ongoing
      let acc :=
        if acc.current_drawdown < 0 then
          { acc with drawdowns := acc.drawdowns ++ [-acc.current_drawdown],
                     dd_durations := acc.dd_durations ++ [acc.current_dd_duration] }
        else acc
      let avg_drawdown :=
        if acc.drawdowns = [] then 0
        else -acc.drawdowns.sum / acc.drawdowns.length
      let avg_dd_duration :=
        if acc.dd_durations = [] then 0
        else Int.tdiv acc.dd_durations.sum acc.dd_durations.length
      (acc.max_drawdown, avg_drawdown, acc.max_dd_duration, avg_dd_duration)
  | _ => (0, 0, 0, 0)

/-- `Calculations::calculate_sortino_ratio` with `f64::sqrt` abstracted as
`sqrtQ`; the result may be `f64::INFINITY`. -/
def calculate_sortino_ratio (sqrtQ : ℚ → ℚ) (equity_curve : List (Time × ℚ))
    (return_ann risk_free_rate : ℚ) : FVal :=
  if equity_curve.length < 2 then FVal.val 0
  else
    let returns := dailyReturns equity_curve
    if returns = [] then FVal.val 0
    else
      let daily_risk_free := risk_free_rate / 252
      let downside_returns := returns.filterMap fun r =>
        if r < daily_risk_free then some (r - daily_risk_free) else none
      if downside_returns = [] then
        if return_ann > risk_free_rate then FVal.posInf else FVal.val 0
      else
        let downside_variance :=
          (downside_returns.map (fun r => r ^ 2)).sum / (downside_returns.length : ℚ)
        let downside_deviation := sqrtQ downside_variance * sqrtQ 252
        if downside_deviation > 0 then
          FVal.val ((return_ann - risk_free_rate) / downside_deviation)
        else FVal.val 0

/-- `Calculations::calculate_sqn` with `f64::sqrt` abstracted as `sqrtQ`. -/
def calculate_sqn (sqrtQ : ℚ → ℚ) (trades : List Trade) : ℚ :=
  if trades.length < 2 then 0
  else
    let avg_trade := (trades.map Trade.pl).sum / (trades.length : ℚ)
    let variance :=
      (trades.map (fun t => (t.pl - avg_trade) ^ 2)).sum / (trades.length : ℚ)
    let std_dev := sqrtQ variance
    if std_dev > 0 then
      sqrtQ (trades.length : ℚ) * avg_trade / std_dev
    else 0

/-- `backtest/mod.rs`: struct BacktestResults.  `sortino_ratio` and
`profit_factor` can be `f64::INFINITY` and so are `FVal`. -/
structure BacktestResults where
  start_date : Time
  end_date : Time
  duration : TDuration
  exposure_time : ℚ
  equity_final : ℚ
  equity_peak : ℚ
  return_pct : ℚ
  buy_hold_return_pct : ℚ
  return_ann : ℚ
  volatility_ann : ℚ
  sharpe_ratio : ℚ
  sortino_ratio : FVal
  calmar_ratio : ℚ
  max_drawdown : ℚ
  avg_drawdown : ℚ
  max_drawdown_duration : TDuration
  avg_drawdown_duration : TDuration
  trades : List Trade
  win_rate : ℚ
  best_trade : ℚ
  worst_trade : ℚ
  avg_trade : ℚ
  max_trade_duration : TDuration
  avg_trade_duration : TDuration
  profit_factor : FVal
  expectancy : ℚ
  sqn : ℚ

/-- `Backtest::calculate_results`.  `sqrtQ`/`powQ` abstract `f64::sqrt` and
`f64::powf`; `now` is the wall clock read by `Trade::duration` for open
trades; the 2% risk-free rate and 365.25 are the exact rationals the source
literals denote (0.02 is not an exact `f64`; the claims checked here do not
depend on its last bits).

The Rust source initializes the `BacktestResults` struct literal field by
field in source order, and the `trades` field is initialized with
`std::mem::take(&mut self.trades)`, which leaves `self.trades` empty.  The
later field initializers for `max_trade_duration` and `avg_trade_duration`
read `self.trades` again — i.e. the emptied vector, modelled here by
`self_trades_after_take`. -/
def calculate_results (sqrtQ : ℚ → ℚ) (powQ : ℚ → ℚ → ℚ) (now : Time)
    (cfg : BacktestConfig) (data : List OHLCV) (st : BState) :
    Except String BacktestResults :=
  match data, st.equity_curve with
  | [], _ => Except.error "No data or equity curve available"
  | _, [] => Except.error "No data or equity curve available"
  | d0 :: drest, e0 :: erest =>
      let dataL := d0 :: drest
      let curve := e0 :: erest
      let dlast := dataL.getLast (List.cons_ne_nil d0 drest)
      let start_date := d0.timestamp
      let end_date := dlast.timestamp
      let duration := end_date - start_date
      let initial_equity := cfg.initial_cash
      let final_equity := (curve.getLast (List.cons_ne_nil e0 erest)).2
      let return_pct := (final_equity - initial_equity) / initial_equity
      let buy_hold_return := (dlast.close - d0.close) / d0.close
      let winning_trades := st.trades.filter fun t => t.pl > 0
      let losing_trades := st.trades.filter fun t => t.pl < 0
      let win_rate :=
        if st.trades = [] then 0
        else (winning_trades.length : ℚ) / (st.trades.length : ℚ)
      let best_trade := (st.trades.map Trade.pl).foldl max 0
      let worst_trade := (st.trades.map Trade.pl).foldl min 0
      let avg_trade :=
        if st.trades = [] then 0
        else (st.trades.map Trade.pl).sum / (st.trades.length : ℚ)
      let exposure_time := calculate_exposure_time dataL st.trades
      let years : ℚ := (numDays duration : ℚ) / (1461 / 4)
      let return_ann := if years > 0 then powQ (1 + return_pct) (1 / years) - 1 else 0
      let volatility_ann := calculate_volatility sqrtQ curve years
      let dd := calculate_drawdown_metrics curve
      let max_drawdown := dd.1
      let avg_drawdown := dd.2.1
      let max_dd_duration := dd.2.2.1
      let avg_dd_duration := dd.2.2.2
      let risk_free_rate : ℚ := 1 / 50
      let sharpe_ratio :=
        if volatility_ann > 0 then (return_ann - risk_free_rate) / volatility_ann
        else 0
      let sortino := calculate_sortino_ratio sqrtQ curve return_ann risk_free_rate
      let calmar_ratio :=
        if |max_drawdown| > 0 then return_ann / |max_drawdown| else 0
      let gross_profit := (winning_trades.map Trade.pl).sum
      let gross_loss := (losing_trades.map (fun t => |t.pl|)).sum
      let profit_factor :=
        if gross_loss > 0 then FVal.val (gross_profit / gross_loss)
        else if gross_profit > 0 then FVal.posInf
        else FVal.val 0
      let sqn := calculate_sqn sqrtQ st.trades
      -- `trades: std::mem::take(&mut self.trades)` empties `self.trades`
      -- before the two duration fields below are evaluated.
      let trades_field := st.trades
      let self_trades_after_take : List Trade := []
      Except.ok
        { start_date, end_date, duration, exposure_time,
          equity_final := final_equity,
          equity_peak := (curve.map (fun p => p.2)).foldl max 0,
          return_pct,
          buy_hold_return_pct := buy_hold_return,
          return_ann, volatility_ann, sharpe_ratio,
          sortino_ratio := sortino,
          calmar_ratio, max_drawdown, avg_drawdown,
          max_drawdown_duration := max_dd_duration,
          avg_drawdown_duration := avg_dd_duration,
          trades := trades_field,
          win_rate, best_trade, worst_trade, avg_trade,
          max_trade_duration :=
            ((self_trades_after_take.map (Trade.durationAt now)).max?).getD 0,
          avg_trade_duration :=
            if self_trades_after_take = [] then 0
            else Int.tdiv ((self_trades_after_take.map (Trade.durationAt now)).sum)
              (self_trades_after_take.length : Int),
          profit_factor,
          expectancy := avg_trade,
          sqn }

/-! ### Theorems -/

/-- Claim C7: `Order::fill` clamps the requested fill size to the order's
remaining size, accumulates it into `filled_size`, and sets the status to
`Filled` exactly when the remaining size reaches zero and to
`PartiallyFilled` otherwise; `Order::cancel` moves to `Cancelled` only from
`Pending` or `PartiallyFilled`, so a `Filled` order is unchanged by `cancel`
and a `Cancelled` order is unchanged by `fill`. -/
theorem order_fill_cancel_lifecycle (o : Order) (fill_size : ℚ) :
    ((o.fill fill_size).1 =
      if o.status = OrderStatus.Cancelled then o
      else
        { o with
          filled_size := o.filled_size + min fill_size o.remaining_size,
          status :=
            if o.size - (o.filled_size + min fill_size o.remaining_size) = 0
            then OrderStatus.Filled else OrderStatus.PartiallyFilled }) ∧
    o.cancel =
      { o with
        status :=
          if o.status = OrderStatus.Pending ∨ o.status = OrderStatus.PartiallyFilled
          then OrderStatus.Cancelled else o.status } := by
  obtain ⟨side, otype, size, lim, stp, sl, tp, tag, ts, status, filled⟩ := o
  constructor
  · by_cases h : status = OrderStatus.Cancelled
    · simp [Order.fill, h]
    · have hle : min fill_size (size - filled) ≤ size - filled := min_le_right _ _
      have hiff : (filled + min fill_size (size - filled) ≥ size) ↔
          (size - (filled + min fill_size (size - filled)) = 0) := by
        constructor <;> intro h' <;> linarith
      simp only [Order.fill, Order.remaining_size, if_neg h]
      simp only [if_congr hiff rfl rfl]
  · cases status <;> simp [Order.cancel]

/-- Claim C3: processing a Buy order against a bar uses the reference price
`p` (bar open when `trade_on_open`, else bar close); when
`size * p * (1 + commission)` is at most the current cash, cash decreases by
exactly that cost, and otherwise the order is skipped and the whole engine
state (cash, position, trade log) is unchanged.  `open_position` returns
`Ok(())` on both paths, so no error is raised either way. -/
theorem buy_order_cash_debit (cfg : BacktestConfig) (st : BState) (o : Order)
    (bar : OHLCV) (hside : o.side = OrderSide.Buy) :
    (o.size * (if cfg.trade_on_open then bar.opn else bar.close) *
        (1 + cfg.commission) ≤ st.cash →
      (process_order cfg st o bar).cash =
        st.cash - o.size * (if cfg.trade_on_open then bar.opn else bar.close) *
          (1 + cfg.commission)) ∧
    (st.cash < o.size * (if cfg.trade_on_open then bar.opn else bar.close) *
        (1 + cfg.commission) →
      process_order cfg st o bar = st) := by
  constructor
  · intro hcost
    simp only [process_order, hside, open_position]
    rw [if_neg (not_lt.mpr hcost)]
    cases st.current_position <;> simp
  · intro hcost
    simp only [process_order, hside, open_position]
    rw [if_pos hcost]

/-- Witness for `buy_order_cash_debit` at a concrete input. -/
theorem buy_order_cash_debit_witness :
    (process_order
      { initial_cash := 10000, commission := 0, margin := 1,
        trade_on_open := false, hedging := false, exclusive_orders := true }
      (initState
        { initial_cash := 10000, commission := 0, margin := 1,
          trade_on_open := false, hedging := false, exclusive_orders := true })
      { side := OrderSide.Buy, order_type := OrderType.Market, size := 100,
        limit := none, stop := none, sl := none, tp := none, tag := none,
        timestamp := 0, status := OrderStatus.Pending, filled_size := 0 }
      { timestamp := 0, opn := 50, high := 50, low := 50, close := 50,
        volume := 0 }).cash = 10000 - 100 * 50 * (1 + 0) := by
  have h := buy_order_cash_debit
    { initial_cash := 10000, commission := 0, margin := 1,
      trade_on_open := false, hedging := false, exclusive_orders := true }
    (initState
      { initial_cash := 10000, commission := 0, margin := 1,
        trade_on_open := false, hedging := false, exclusive_orders := true })
    { side := OrderSide.Buy, order_type := OrderType.Market, size := 100,
      limit := none, stop := none, sl := none, tp := none, tag := none,
      timestamp := 0, status := OrderStatus.Pending, filled_size := 0 }
    { timestamp := 0, opn := 50, high := 50, low := 50, close := 50,
      volume := 0 } rfl
  have h2 := h.1 (by norm_num [initState])
  simpa [initState] using h2

/-- Claim C10: a Buy fill onto an already-open position (with sufficient
cash) changes only the position's `size`, `entry_price` and `current_price`;
its `entry_time`, `sl`, `tp` and `tag` are untouched (expressed by the
record update below, which copies every other field of `p`), and the
engine's `position_entry_bar` keeps its previous value. -/
theorem buy_increase_position_frame (cfg : BacktestConfig) (st : BState)
    (size price : ℚ) (ts : Time) (cur : ℚ) (p : Position)
    (hpos : st.current_position = some p)
    (hcost : size * price * (1 + cfg.commission) ≤ st.cash) :
    (open_position cfg st size price ts cur).current_position =
      some { p with
             size := p.size + size,
             entry_price := (p.size * p.entry_price + size * price) / (p.size + size),
             current_price := cur } ∧
    (open_position cfg st size price ts cur).position_entry_bar =
      st.position_entry_bar := by
  simp only [open_position]
  rw [if_neg (not_lt.mpr hcost)]
  simp [hpos, Position.update_price]

/-- Witness for `buy_increase_position_frame` at a concrete input. -/
theorem buy_increase_position_frame_witness :
    (open_position
      { initial_cash := 10000, commission := 0, margin := 1,
        trade_on_open := false, hedging := false, exclusive_orders := true }
      { current_position := some
          { size := 10, entry_price := 50, entry_time := 7, current_price := 55,
            sl := some 40, tp := some 70, tag := some "a" },
        cash := 5000, equity_curve := [], trades := [],
        current_bar_index := 3, position_entry_bar := some 1 }
      10 60 999 61).current_position =
      some { size := 10 + 10,
             entry_price := (10 * 50 + 10 * 60) / (10 + 10),
             entry_time := 7, current_price := 61,
             sl := some 40, tp := some 70, tag := some "a" } := by
  have h := buy_increase_position_frame
    { initial_cash := 10000, commission := 0, margin := 1,
      trade_on_open := false, hedging := false, exclusive_orders := true }
    { current_position := some
        { size := 10, entry_price := 50, entry_time := 7, current_price := 55,
          sl := some 40, tp := some 70, tag := some "a" },
      cash := 5000, equity_curve := [], trades := [],
      current_bar_index := 3, position_entry_bar := some 1 }
    10 60 999 61
    { size := 10, entry_price := 50, entry_time := 7, current_price := 55,
      sl := some 40, tp := some 70, tag := some "a" }
    rfl (by norm_num)
  exact h.1

/-- Invariant for claim C9: nonnegative cash, and any open position has
nonnegative size. -/
def CashInv (st : BState) : Prop :=
  0 ≤ st.cash ∧ ∀ p, st.current_position = some p → 0 ≤ p.size

lemma open_position_inv (cfg : BacktestConfig) (st : BState)
    (size price : ℚ) (ts : Time) (cur : ℚ) (hsz : 0 ≤ size)
    (h : CashInv st) : CashInv (open_position cfg st size price ts cur) := by
  obtain ⟨hcash, hpos⟩ := h
  obtain ⟨pos, cash, curve, trades, bidx, peb⟩ := st
  cases pos with
  | none =>
      simp only [open_position]
      split
      · exact ⟨hcash, hpos⟩
      · rename_i hcost
        have hcost' := not_lt.mp hcost
        refine ⟨?_, ?_⟩
        · dsimp only
          linarith
        · intro q hq
          dsimp only at hq
          simp only [Position.update_price, Position.new, Option.some.injEq] at hq
          subst hq
          exact hsz
  | some p =>
      have hp := hpos p rfl
      simp only [open_position]
      split
      · exact ⟨hcash, hpos⟩
      · rename_i hcost
        have hcost' := not_lt.mp hcost
        refine ⟨?_, ?_⟩
        · dsimp only
          linarith
        · intro q hq
          dsimp only at hq
          simp only [Position.update_price, Option.some.injEq] at hq
          subst hq
          dsimp only
          linarith

lemma close_position_inv (cfg : BacktestConfig) (st : BState)
    (size price : ℚ) (bar : OHLCV) (hc1 : cfg.commission ≤ 1)
    (hsz : 0 ≤ size) (hpr : 0 ≤ price)
    (h : CashInv st) : CashInv (close_position cfg st size price bar) := by
  obtain ⟨hcash, hpos⟩ := h
  obtain ⟨pos, cash, curve, trades, bidx, peb⟩ := st
  cases pos with
  | none =>
      simp only [close_position]
      exact ⟨hcash, hpos⟩
  | some p =>
      have hp := hpos p rfl
      have h0 : 0 ≤ min size p.size := le_min hsz hp
      have hle : min size p.size ≤ p.size := min_le_right _ _
      have hpro : 0 ≤ min size p.size * price * (1 - cfg.commission) :=
        mul_nonneg (mul_nonneg h0 hpr) (by linarith)
      simp only [close_position]
      split
      · refine ⟨?_, ?_⟩
        · dsimp only
          linarith
        · intro q hq
          dsimp only at hq
          exact absurd hq (by simp)
      · refine ⟨?_, ?_⟩
        · dsimp only
          linarith
        · intro q hq
          dsimp only at hq
          simp only [Option.some.injEq] at hq
          subst hq
          dsimp only
          linarith

lemma process_order_inv (cfg : BacktestConfig) (st : BState) (o : Order)
    (bar : OHLCV) (hc0 : 0 ≤ cfg.commission) (hc1 : cfg.commission ≤ 1)
    (hopn : 0 ≤ bar.opn) (hcl : 0 ≤ bar.close) (hsz : 0 ≤ o.size)
    (h : CashInv st) : CashInv (process_order cfg st o bar) := by
  have hprice : 0 ≤ (if cfg.trade_on_open then bar.opn else bar.close) := by
    split <;> assumption
  cases hside : o.side
  case Buy =>
    simp only [process_order, hside]
    exact open_position_inv cfg st o.size _ bar.timestamp bar.close hsz h
  case Sell =>
    simp only [process_order, hside]
    exact close_position_inv cfg st o.size _ bar hc1 hsz hprice h

lemma processOrders_inv (cfg : BacktestConfig) (bar : OHLCV) (st : BState)
    (orders : List Order) (hc0 : 0 ≤ cfg.commission) (hc1 : cfg.commission ≤ 1)
    (hopn : 0 ≤ bar.opn) (hcl : 0 ≤ bar.close)
    (hsz : ∀ o ∈ orders, 0 ≤ o.size) (h : CashInv st) :
    CashInv (processOrders cfg bar st orders) := by
  induction orders generalizing st with
  | nil => exact h
  | cons o rest ih =>
      exact ih _ (fun x hx => hsz x (List.mem_cons_of_mem _ hx))
        (process_order_inv cfg st o bar hc0 hc1 hopn hcl
          (hsz o (List.mem_cons_self _ _)) h)

lemma stepBar_inv (cfg : BacktestConfig) (st : BState) (bar : OHLCV)
    (index : Nat) (orders : List Order)
    (hc0 : 0 ≤ cfg.commission) (hc1 : cfg.commission ≤ 1)
    (hopn : 0 ≤ bar.opn) (hcl : 0 ≤ bar.close)
    (hsz : ∀ o ∈ orders, 0 ≤ o.size) (h : CashInv st) :
    CashInv (stepBar cfg st bar index orders) := by
  have hmid : CashInv (processOrders cfg bar { st with current_bar_index := index }
      orders) :=
    processOrders_inv cfg bar _ orders hc0 hc1 hopn hcl hsz ⟨h.1, h.2⟩
  obtain ⟨h1, h2⟩ := hmid
  simp only [stepBar]
  refine ⟨h1, ?_⟩
  intro q hq
  simp only [Option.map_eq_some'] at hq
  obtain ⟨p, hp, rfl⟩ := hq
  simpa [Position.update_price] using h2 p hp

lemma runLoopFrom_inv (cfg : BacktestConfig) (ords : Nat → Option (List Order))
    (hc0 : 0 ≤ cfg.commission) (hc1 : cfg.commission ≤ 1)
    (hords : ∀ n os, ords n = some os → ∀ o ∈ os, 0 ≤ o.size) :
    ∀ (data : List OHLCV) (idx : Nat) (st st' : BState),
      (∀ b ∈ data, 0 ≤ b.opn ∧ 0 ≤ b.close) → CashInv st →
      runLoopFrom cfg ords data idx st = some st' → CashInv st' := by
  intro data
  induction data with
  | nil =>
      intro idx st st' _ h hrun
      simp only [runLoopFrom, Option.some.injEq] at hrun
      exact hrun ▸ h
  | cons bar rest ih =>
      intro idx st st' hbars h hrun
      simp only [runLoopFrom] at hrun
      cases hords' : ords idx with
      | none => simp [hords'] at hrun
      | some orders =>
          rw [hords'] at hrun
          exact ih (idx + 1) _ st'
            (fun b hb => hbars b (List.mem_cons_of_mem _ hb))
            (stepBar_inv cfg st bar idx orders hc0 hc1
              (hbars bar (List.mem_cons_self _ _)).1
              (hbars bar (List.mem_cons_self _ _)).2
              (hords idx orders hords') h) hrun

/-- Claim C9: with nonnegative initial cash, a commission rate in [0,1],
nonnegative bar open/close prices and only nonnegative order sizes, the
engine's cash is nonnegative at every intermediate point of a run — after
processing each prefix of the orders of every bar (`midState i j` is the
state during bar `i` after its first `j` orders). -/
theorem cash_nonneg_invariant (cfg : BacktestConfig)
    (ords : Nat → Option (List Order)) (data : List OHLCV) (i j : Nat)
    (st' : BState)
    (hcash : 0 ≤ cfg.initial_cash)
    (hc0 : 0 ≤ cfg.commission) (hc1 : cfg.commission ≤ 1)
    (hbars : ∀ b ∈ data, 0 ≤ b.opn ∧ 0 ≤ b.close)
    (hords : ∀ n os, ords n = some os → ∀ o ∈ os, 0 ≤ o.size)
    (h : midState cfg ords data i j = some st') : 0 ≤ st'.cash := by
  simp only [midState] at h
  cases hrun : runLoop cfg ords (data.take i) with
  | none => rw [hrun] at h; simp at h
  | some st =>
      rw [hrun] at h
      cases hbar : data[i]? with
      | none => rw [hbar] at h; simp at h
      | some bar =>
          rw [hbar] at h
          cases hos : ords i with
          | none => rw [hos] at h; simp at h
          | some orders =>
              rw [hos] at h
              simp only [Option.some.injEq] at h
              have hst : CashInv st := by
                refine runLoopFrom_inv cfg ords hc0 hc1 hords (data.take i) 0
                  (initState cfg) st ?_ ?_ hrun
                · intro b hb
                  exact hbars b (List.mem_of_mem_take hb)
                · exact ⟨hcash, by intro p hp; simp [initState] at hp⟩
              have hbar_mem : bar ∈ data := List.getElem?_mem hbar
              have hres : CashInv (processOrders cfg bar
                  { st with current_bar_index := i } (orders.take j)) := by
                refine processOrders_inv cfg bar _ _ hc0 hc1
                  (hbars bar hbar_mem).1 (hbars bar hbar_mem).2 ?_ ⟨hst.1, hst.2⟩
                intro o ho
                exact hords i orders hos o (List.mem_of_mem_take ho)
              rw [← h]
              exact hres.1

/-- Concrete run inputs used by several witnesses below. -/
def wCfg : BacktestConfig :=
  { initial_cash := 100, commission := 0, margin := 1,
    trade_on_open := false, hedging := false, exclusive_orders := true }

def wBuy : Order :=
  { side := OrderSide.Buy, order_type := OrderType.Market, size := 2,
    limit := none, stop := none, sl := none, tp := none, tag := none,
    timestamp := 0, status := OrderStatus.Pending, filled_size := 0 }

def wBar : OHLCV :=
  { timestamp := 0, opn := 50, high := 50, low := 50, close := 50, volume := 0 }

def wOrds : Nat → Option (List Order) := fun _ => some [wBuy]

/-- The state reached in the middle of bar 0 of the `wCfg` run, after its
single Buy order. -/
def wMid : BState :=
  { current_position := some
      { size := 2, entry_price := 50, entry_time := 0, current_price := 50,
        sl := none, tp := none, tag := none },
    cash := 0, equity_curve := [], trades := [],
    current_bar_index := 0, position_entry_bar := some 0 }

/-- Witness for `cash_nonneg_invariant` at a concrete input. -/
theorem cash_nonneg_invariant_witness :
    midState wCfg wOrds [wBar] 0 1 = some wMid ∧ 0 ≤ wMid.cash := by
  have h : midState wCfg wOrds [wBar] 0 1 = some wMid := by
    norm_num [midState, runLoop, runLoopFrom, initState, processOrders,
      process_order, open_position, Position.new, Position.update_price,
      wCfg, wOrds, wBuy, wBar, wMid]
  refine ⟨h, ?_⟩
  refine cash_nonneg_invariant wCfg wOrds [wBar] 0 1 wMid ?_ ?_ ?_ ?_ ?_ h
  · norm_num [wCfg]
  · norm_num [wCfg]
  · norm_num [wCfg]
  · intro b hb
    simp only [List.mem_singleton] at hb
    subst hb
    norm_num [wBar]
  · intro n os hos o ho
    simp only [wOrds, Option.some.injEq] at hos
    subst hos
    simp only [List.mem_singleton] at ho
    subst ho
    norm_num [wBuy]

lemma ddStep_max_nonpos (acc : DDAcc) (pt : Time × ℚ)
    (h : acc.max_drawdown ≤ 0) : (ddStep acc pt).max_drawdown ≤ 0 := by
  simp only [ddStep]
  split
  · split <;> exact h
  · split
    · rename_i hcd
      dsimp only at hcd ⊢
      linarith
    · exact h

lemma foldl_ddStep_max_nonpos (l : List (Time × ℚ)) :
    ∀ acc : DDAcc, acc.max_drawdown ≤ 0 →
      (l.foldl ddStep acc).max_drawdown ≤ 0 := by
  induction l with
  | nil => intro acc h; exact h
  | cons pt rest ih =>
      intro acc h
      exact ih (ddStep acc pt) (ddStep_max_nonpos acc pt h)

lemma foldl_ddStep_monotone (l : List (Time × ℚ)) :
    ∀ acc : DDAcc,
      List.Chain' (· ≤ ·) (acc.peak_equity :: l.map (fun p => p.2)) →
      acc.max_drawdown = 0 → acc.current_drawdown = 0 → acc.drawdowns = [] →
      (l.foldl ddStep acc).max_drawdown = 0 ∧
      (l.foldl ddStep acc).current_drawdown = 0 ∧
      (l.foldl ddStep acc).drawdowns = [] := by
  induction l with
  | nil =>
      intro acc _ h1 h2 h3
      exact ⟨h1, h2, h3⟩
  | cons pt rest ih =>
      intro acc hchain h1 h2 h3
      rw [List.map_cons, List.chain'_cons] at hchain
      obtain ⟨hpe, hchain'⟩ := hchain
      rw [List.foldl_cons]
      by_cases hgt : pt.2 > acc.peak_equity
      · have hstep : ddStep acc pt =
            { acc with peak_equity := pt.2, current_drawdown := 0,
                       current_dd_duration := 0, drawdown_start := pt.1 } := by
          simp only [ddStep, if_pos hgt, h2]
          norm_num
        rw [hstep]
        exact ih _ (by simpa using hchain') h1 rfl h3
      · have heq : pt.2 = acc.peak_equity := le_antisymm (not_lt.mp hgt) hpe
        have hcd : (pt.2 - acc.peak_equity) / acc.peak_equity = 0 := by
          rw [heq]
          simp
        have hstep : ddStep acc pt =
            { acc with current_drawdown := 0,
                       current_dd_duration := pt.1 - acc.drawdown_start } := by
          simp only [ddStep, if_neg hgt, hcd]
          rw [if_neg (by rw [h1]; exact lt_irrefl 0)]
        rw [hstep]
        refine ih _ ?_ h1 rfl h3
        simpa [heq] using hchain'

/-- Claim C5: the maximum drawdown computed by
`calculate_drawdown_metrics` is at most 0 for every equity curve, and on a
monotonically non-decreasing equity curve both the maximum and the average
drawdown are exactly 0. -/
theorem drawdown_nonpos_and_monotone_zero (equity_curve : List (Time × ℚ)) :
    (calculate_drawdown_metrics equity_curve).1 ≤ 0 ∧
    (List.Chain' (· ≤ ·) (equity_curve.map (fun p => p.2)) →
      (calculate_drawdown_metrics equity_curve).1 = 0 ∧
      (calculate_drawdown_metrics equity_curve).2.1 = 0) := by
  match equity_curve with
  | [] => exact ⟨le_refl 0, fun _ => ⟨rfl, rfl⟩⟩
  | [c0] => exact ⟨le_refl 0, fun _ => ⟨rfl, rfl⟩⟩
  | c0 :: c1 :: rest =>
      constructor
      · have hfold := foldl_ddStep_max_nonpos (c0 :: c1 :: rest)
          { max_drawdown := 0, current_drawdown := 0, peak_equity := c0.2,
            drawdown_start := c0.1, max_dd_duration := 0,
            current_dd_duration := 0, drawdowns := [], dd_durations := [] }
          le_rfl
        simp only [calculate_drawdown_metrics]
        split <;> exact hfold
      · intro hchain
        have hchain' : List.Chain' (· ≤ ·)
            (c0.2 :: (c0 :: c1 :: rest).map (fun p => p.2)) := by
          rw [List.map_cons, List.chain'_cons]
          exact ⟨le_rfl, hchain⟩
        have hfold := foldl_ddStep_monotone (c0 :: c1 :: rest)
          { max_drawdown := 0, current_drawdown := 0, peak_equity := c0.2,
            drawdown_start := c0.1, max_dd_duration := 0,
            current_dd_duration := 0, drawdowns := [], dd_durations := [] }
          hchain' rfl rfl rfl
        obtain ⟨hmax, hcur, hdds⟩ := hfold
        simp only [List.foldl_cons] at hmax hcur hdds
        simp only [calculate_drawdown_metrics, List.foldl_cons]
        simp [hmax, hcur, hdds]

/-- Witness for `drawdown_nonpos_and_monotone_zero` at a concrete input. -/
theorem drawdown_nonpos_and_monotone_zero_witness :
    (calculate_drawdown_metrics [((0:Time), (10:ℚ)), (86400, 11)]).1 = 0 ∧
    (calculate_drawdown_metrics [((0:Time), (10:ℚ)), (86400, 11)]).2.1 = 0 := by
  refine (drawdown_nonpos_and_monotone_zero _).2 ?_
  simp only [List.map_cons, List.map_nil, List.chain'_cons, List.chain'_singleton]
  norm_num

/-- Claim C6 counterexample: on the two-point equity curve
`[(0, 0), (86400, 0)]` no per-bar fractional return exists at all (the
previous equity is never positive), so in particular none is below the daily
risk-free rate; with an annualized return of 1 (which exceeds the 2%
risk-free rate) the claim then demands an infinite Sortino ratio, but the
code returns 0 (it bails out on the empty returns list before the
no-downside branch). -/
theorem sortino_counterexample :
    dailyReturns [((0:Time), (0:ℚ)), (86400, 0)] = [] ∧
    (1:ℚ) > 1/50 ∧
    calculate_sortino_ratio id [((0:Time), (0:ℚ)), (86400, 0)] 1 (1/50) =
      FVal.val 0 ∧
    FVal.val 0 ≠ FVal.posInf := by
  have hdr : dailyReturns [((0:Time), (0:ℚ)), (86400, 0)] = [] := by
    norm_num [dailyReturns]
  refine ⟨hdr, by norm_num, ?_, by simp⟩
  norm_num [calculate_sortino_ratio, dailyReturns]

/-- Claim C6 (amended): for an equity curve with at least 2 points *and at
least one computable per-bar return* (some consecutive pair has positive
earlier equity), the Sortino ratio is infinite when no return is below the
daily risk-free rate and the annualized return exceeds the risk-free rate
(zero when it does not), and otherwise equals
(annualized return − risk-free rate) divided by the downside deviation
computed from the below-threshold returns, annualized by √252.  `sqrtQ`
abstracts `f64::sqrt` (positive on positive inputs). -/
theorem sortino_ratio_cases (sqrtQ : ℚ → ℚ)
    (hsq : ∀ x : ℚ, 0 < x → 0 < sqrtQ x)
    (curve : List (Time × ℚ)) (return_ann risk_free_rate : ℚ)
    (hlen : 2 ≤ curve.length)
    (hret : dailyReturns curve ≠ []) :
    ((dailyReturns curve).filterMap (fun r =>
        if r < risk_free_rate / 252 then some (r - risk_free_rate / 252)
        else none) = [] →
      calculate_sortino_ratio sqrtQ curve return_ann risk_free_rate =
        (if return_ann > risk_free_rate then FVal.posInf else FVal.val 0)) ∧
    ((dailyReturns curve).filterMap (fun r =>
        if r < risk_free_rate / 252 then some (r - risk_free_rate / 252)
        else none) ≠ [] →
      calculate_sortino_ratio sqrtQ curve return_ann risk_free_rate =
        FVal.val ((return_ann - risk_free_rate) /
          (sqrtQ ((((dailyReturns curve).filterMap (fun r =>
              if r < risk_free_rate / 252 then some (r - risk_free_rate / 252)
              else none)).map (fun r => r ^ 2)).sum /
            (((dailyReturns curve).filterMap (fun r =>
              if r < risk_free_rate / 252 then some (r - risk_free_rate / 252)
              else none)).length : ℚ)) * sqrtQ 252))) := by
  set ds := (dailyReturns curve).filterMap (fun r =>
    if r < risk_free_rate / 252 then some (r - risk_free_rate / 252)
    else none) with hds
  constructor
  · intro hempty
    simp only [calculate_sortino_ratio, if_neg (Nat.not_lt.mpr hlen),
      if_neg hret, ← hds, hempty]
    simp
  · intro hne
    have hdpos : ∀ d ∈ ds, d < 0 := by
      intro d hd
      rw [hds, List.mem_filterMap] at hd
      obtain ⟨r, _, hr⟩ := hd
      by_cases hlt : r < risk_free_rate / 252
      · rw [if_pos hlt, Option.some.injEq] at hr
        subst hr
        linarith
      · rw [if_neg hlt] at hr
        exact absurd hr (Option.noConfusion)
    have hsum : 0 < (ds.map (fun r => r ^ 2)).sum := by
      apply List.sum_pos
      · intro x hx
        rw [List.mem_map] at hx
        obtain ⟨d, hd, rfl⟩ := hx
        have := hdpos d hd
        rw [pow_two]
        exact mul_pos_of_neg_of_neg this this
      · simpa using hne
    have hvar : 0 < (ds.map (fun r => r ^ 2)).sum / (ds.length : ℚ) := by
      apply div_pos hsum
      have : ds ≠ [] := hne
      have hl : 0 < ds.length := List.length_pos.mpr this
      exact_mod_cast hl
    have hdd : 0 < sqrtQ ((ds.map (fun r => r ^ 2)).sum / (ds.length : ℚ)) *
        sqrtQ 252 :=
      mul_pos (hsq _ hvar) (hsq 252 (by norm_num))
    simp only [calculate_sortino_ratio, if_neg (Nat.not_lt.mpr hlen),
      if_neg hret, ← hds, if_neg hne, if_pos hdd]

/-- Witness for `sortino_ratio_cases` at a concrete input. -/
theorem sortino_ratio_cases_witness :
    calculate_sortino_ratio id [((0:Time), (100:ℚ)), (86400, 101)] 1 (1/50) =
      FVal.posInf := by
  have hret : dailyReturns [((0:Time), (100:ℚ)), (86400, 101)] = [1/100] := by
    norm_num [dailyReturns]
  have h := (sortino_ratio_cases id (fun x hx => hx)
    [((0:Time), (100:ℚ)), (86400, 101)] 1 (1/50) (by norm_num)
    (by rw [hret]; simp)).1
  rw [h (by rw [hret]; norm_num)]
  norm_num

lemma calculate_sqn_var_zero (sqrtQ : ℚ → ℚ) (hsq0 : sqrtQ 0 = 0)
    (trades : List Trade)
    (h : (trades.map (fun t =>
        (t.pl - (trades.map Trade.pl).sum / (trades.length : ℚ)) ^ 2)).sum /
      (trades.length : ℚ) = 0) :
    calculate_sqn sqrtQ trades = 0 := by
  simp only [calculate_sqn]
  split
  · rfl
  · rw [h, hsq0]
    simp

/-- Claim C8: `calculate_sqn` returns 0 when there are fewer than 2 trades
or the variance (equivalently, standard deviation) of trade P&L is zero —
in particular, for exactly two trades with identical P&L it returns 0
without dividing — and otherwise returns
√(trade count) × mean(P&L) / stdev(P&L), with `sqrtQ` abstracting
`f64::sqrt` (zero at zero, positive exactly on positives). -/
theorem sqn_cases (sqrtQ : ℚ → ℚ) (hsq0 : sqrtQ 0 = 0)
    (hsq : ∀ x : ℚ, 0 ≤ x → (0 < sqrtQ x ↔ 0 < x))
    (trades : List Trade) :
    (trades.length < 2 → calculate_sqn sqrtQ trades = 0) ∧
    ((trades.map (fun t =>
        (t.pl - (trades.map Trade.pl).sum / (trades.length : ℚ)) ^ 2)).sum /
      (trades.length : ℚ) = 0 →
      calculate_sqn sqrtQ trades = 0) ∧
    (2 ≤ trades.length →
      (trades.map (fun t =>
        (t.pl - (trades.map Trade.pl).sum / (trades.length : ℚ)) ^ 2)).sum /
      (trades.length : ℚ) ≠ 0 →
      calculate_sqn sqrtQ trades =
        sqrtQ (trades.length : ℚ) *
          ((trades.map Trade.pl).sum / (trades.length : ℚ)) /
          sqrtQ ((trades.map (fun t =>
            (t.pl - (trades.map Trade.pl).sum / (trades.length : ℚ)) ^ 2)).sum /
            (trades.length : ℚ))) ∧
    (∀ t1 t2 : Trade, t1.pl = t2.pl → calculate_sqn sqrtQ [t1, t2] = 0) := by
  refine ⟨?_, ?_, ?_, ?_⟩
  · intro hl
    simp only [calculate_sqn, if_pos hl]
  · exact calculate_sqn_var_zero sqrtQ hsq0 trades
  · intro hl hvar
    have hnn : 0 ≤ (trades.map (fun t =>
        (t.pl - (trades.map Trade.pl).sum / (trades.length : ℚ)) ^ 2)).sum /
        (trades.length : ℚ) := by
      apply div_nonneg
      · apply List.sum_nonneg
        intro x hx
        rw [List.mem_map] at hx
        obtain ⟨t, _, rfl⟩ := hx
        exact sq_nonneg _
      · positivity
    have hpos := lt_of_le_of_ne hnn (Ne.symm hvar)
    have hstd : 0 < sqrtQ ((trades.map (fun t =>
        (t.pl - (trades.map Trade.pl).sum / (trades.length : ℚ)) ^ 2)).sum /
        (trades.length : ℚ)) := (hsq _ hnn).mpr hpos
    simp only [calculate_sqn, if_neg (Nat.not_lt.mpr hl), if_pos hstd]
  · intro t1 t2 hpl
    apply calculate_sqn_var_zero sqrtQ hsq0
    simp only [List.map_cons, List.map_nil, List.sum_cons, List.sum_nil,
      List.length_cons, List.length_nil]
    rw [← hpl]
    push_cast
    ring_nf

/-- A concrete closed winning trade (P&L 5), used by witnesses. -/
def wTrade : Trade :=
  { entry_bar := 0, entry_price := 10, entry_time := 0,
    exit_bar := some 1, exit_price := some 15, exit_time := some 86400,
    size := 1, sl := none, tp := none, tag := none }

/-- Witness for `sqn_cases` at a concrete input. -/
theorem sqn_cases_witness : calculate_sqn id [wTrade, wTrade] = 0 := by
  exact (sqn_cases id rfl (fun x _ => Iff.rfl) [wTrade, wTrade]).2.2.2
    wTrade wTrade rfl

lemma foldl_max_init_le (l : List ℚ) : ∀ a : ℚ, a ≤ l.foldl max a := by
  induction l with
  | nil => intro a; exact le_refl a
  | cons x t ih =>
      intro a
      exact le_trans (le_max_left a x) (ih (max a x))

lemma foldl_max_mem_le (l : List ℚ) : ∀ (a : ℚ) (x : ℚ), x ∈ l → x ≤ l.foldl max a := by
  induction l with
  | nil => intro a x hx; exact absurd hx (List.not_mem_nil x)
  | cons y t ih =>
      intro a x hx
      rcases List.mem_cons.mp hx with rfl | hx
      · exact le_trans (le_max_right a x) (foldl_max_init_le t (max a x))
      · exact ih (max a y) x hx

lemma foldl_max_eq_init_or_mem (l : List ℚ) :
    ∀ a : ℚ, l.foldl max a = a ∨ l.foldl max a ∈ l := by
  induction l with
  | nil => intro a; exact Or.inl rfl
  | cons x t ih =>
      intro a
      rcases ih (max a x) with h | h
      · rcases max_choice a x with hm | hm
        · exact Or.inl (by rw [List.foldl_cons, h, hm])
        · exact Or.inr (by rw [List.foldl_cons, h, hm]; exact List.mem_cons_self x t)
      · exact Or.inr (List.mem_cons_of_mem x h)

lemma foldl_min_le_init (l : List ℚ) : ∀ a : ℚ, l.foldl min a ≤ a := by
  induction l with
  | nil => intro a; exact le_refl a
  | cons x t ih =>
      intro a
      exact le_trans (ih (min a x)) (min_le_left a x)

lemma foldl_min_le_mem (l : List ℚ) : ∀ (a : ℚ) (x : ℚ), x ∈ l → l.foldl min a ≤ x := by
  induction l with
  | nil => intro a x hx; exact absurd hx (List.not_mem_nil x)
  | cons y t ih =>
      intro a x hx
      rcases List.mem_cons.mp hx with rfl | hx
      · exact le_trans (foldl_min_le_init t (min a x)) (min_le_right a x)
      · exact ih (min a y) x hx

lemma foldl_min_eq_init_or_mem (l : List ℚ) :
    ∀ a : ℚ, l.foldl min a = a ∨ l.foldl min a ∈ l := by
  induction l with
  | nil => intro a; exact Or.inl rfl
  | cons x t ih =>
      intro a
      rcases ih (min a x) with h | h
      · rcases min_choice a x with hm | hm
        · exact Or.inl (by rw [List.foldl_cons, h, hm])
        · exact Or.inr (by rw [List.foldl_cons, h, hm]; exact List.mem_cons_self x t)
      · exact Or.inr (List.mem_cons_of_mem x h)

/-- Claim C2 (amended): in a successfully computed `BacktestResults`,
`best_trade` is the fold of `max` over the trades' realized P&L *seeded with
0* — an upper bound of every trade's P&L that is itself nonnegative, and is
either 0 or one of the trade P&Ls — and `worst_trade` is the dual fold of
`min` seeded with 0; `avg_trade` is the mean of the P&Ls; with an empty
trade log all three are zero.  (The unamended claim — `best_trade` equals
the *maximum* P&L — fails when every trade loses; see the
counterexample.) -/
theorem best_worst_trade_fold (sqrtQ : ℚ → ℚ) (powQ : ℚ → ℚ → ℚ) (now : Time)
    (cfg : BacktestConfig) (data : List OHLCV) (st : BState)
    (r : BacktestResults)
    (h : calculate_results sqrtQ powQ now cfg data st = Except.ok r) :
    (st.trades = [] → r.best_trade = 0 ∧ r.worst_trade = 0 ∧ r.avg_trade = 0) ∧
    (0 ≤ r.best_trade ∧ (∀ t ∈ st.trades, t.pl ≤ r.best_trade) ∧
      (r.best_trade = 0 ∨ r.best_trade ∈ st.trades.map Trade.pl)) ∧
    (r.worst_trade ≤ 0 ∧ (∀ t ∈ st.trades, r.worst_trade ≤ t.pl) ∧
      (r.worst_trade = 0 ∨ r.worst_trade ∈ st.trades.map Trade.pl)) ∧
    (st.trades ≠ [] →
      r.avg_trade = (st.trades.map Trade.pl).sum / (st.trades.length : ℚ)) := by
  obtain ⟨pos, cash, curve, trades, bidx, peb⟩ := st
  cases data with
  | nil =>
      rw [calculate_results] at h
      exact absurd h (by simp)
  | cons d0 drest =>
      cases curve with
      | nil =>
          simp only [calculate_results] at h
          exact absurd h (by simp)
      | cons e0 erest =>
          simp only [calculate_results, Except.ok.injEq] at h
          subst h
          refine ⟨?_, ?_, ?_, ?_⟩
          · intro hempty
            dsimp only at hempty ⊢
            simp [hempty]
          · refine ⟨foldl_max_init_le _ 0, ?_, foldl_max_eq_init_or_mem _ 0⟩
            intro t ht
            exact foldl_max_mem_le _ 0 t.pl (List.mem_map_of_mem Trade.pl ht)
          · refine ⟨foldl_min_le_init _ 0, ?_, foldl_min_eq_init_or_mem _ 0⟩
            intro t ht
            exact foldl_min_le_mem _ 0 t.pl (List.mem_map_of_mem Trade.pl ht)
          · intro hne
            dsimp only at hne ⊢
            simp [hne]

/-- A two-bar data set (one day apart) used by the concrete
counterexamples. -/
def cexData : List OHLCV :=
  [{ timestamp := 0, opn := 10, high := 10, low := 10, close := 10, volume := 0 },
   { timestamp := 86400, opn := 9, high := 9, low := 9, close := 9, volume := 0 }]

/-- An end-of-run engine state whose only trade lost 1 (entered at 10,
exited at 9, size 1, held from time 0 to 86400). -/
def cexLossSt : BState :=
  { current_position := none, cash := 9999,
    equity_curve := [(0, 10000), (86400, 9999)],
    trades := [{ entry_bar := 0, entry_price := 10, entry_time := 0,
                 exit_bar := some 1, exit_price := some 9,
                 exit_time := some 86400, size := 1,
                 sl := none, tp := none, tag := none }],
    current_bar_index := 1, position_entry_bar := none }

/-- An end-of-run engine state whose only trade won 5. -/
def cexWinSt : BState :=
  { current_position := none, cash := 10005,
    equity_curve := [(0, 10000), (86400, 10005)],
    trades := [wTrade],
    current_bar_index := 1, position_entry_bar := none }

/-- Claim C2 counterexample: with a single losing trade (P&L −1) the
maximum realized P&L over the log is −1, but the code's zero-seeded fold
reports `best_trade = 0`; dually, with a single winning trade (P&L 5) the
minimum is 5 but `worst_trade = 0`. -/
theorem best_worst_trade_counterexample :
    (calculate_results id (fun _ _ => 0) 0 wCfg cexData cexLossSt).toOption.map
        (fun r => r.best_trade) = some 0 ∧
    cexLossSt.trades.map Trade.pl = [-1] ∧ (0:ℚ) ≠ -1 ∧
    (calculate_results id (fun _ _ => 0) 0 wCfg cexData cexWinSt).toOption.map
        (fun r => r.worst_trade) = some 0 ∧
    cexWinSt.trades.map Trade.pl = [5] ∧ (0:ℚ) ≠ 5 := by
  have hpl1 : cexLossSt.trades.map Trade.pl = [-1] := by
    norm_num [cexLossSt, Trade.pl, Trade.is_long]
  have hpl2 : cexWinSt.trades.map Trade.pl = [5] := by
    norm_num [cexWinSt, wTrade, Trade.pl, Trade.is_long]
  refine ⟨?_, hpl1, by norm_num, ?_, hpl2, by norm_num⟩
  · simp only [cexData, cexLossSt, calculate_results, Except.toOption,
      Option.map]
    norm_num [Trade.pl, Trade.is_long]
  · simp only [cexData, cexWinSt, calculate_results, Except.toOption,
      Option.map]
    norm_num [wTrade, Trade.pl, Trade.is_long]

/-- The spec's end-to-end scenario: 10000 initial cash, zero commission,
daily bars closing 50, 60, 60; Buy 100 at bar 0, Sell 100 at bar 2. -/
def bugCfg : BacktestConfig :=
  { initial_cash := 10000, commission := 0, margin := 1,
    trade_on_open := false, hedging := false, exclusive_orders := true }

def bugBars : List OHLCV :=
  [{ timestamp := 0, opn := 50, high := 50, low := 50, close := 50, volume := 0 },
   { timestamp := 86400, opn := 60, high := 60, low := 60, close := 60, volume := 0 },
   { timestamp := 172800, opn := 60, high := 60, low := 60, close := 60, volume := 0 }]

def bugBuy : Order := { wBuy with size := 100 }

def bugSell : Order := { wBuy with side := OrderSide.Sell, size := 100 }

def bugOrds : Nat → Option (List Order)
  | 0 => some [bugBuy]
  | 2 => some [bugSell]
  | _ => some []

/-- Claim C1 (code bug): `calculate_results` moves the trade log out with
`std::mem::take(&mut self.trades)` in the `trades` struct field *before*
the `max_trade_duration` and `avg_trade_duration` fields are computed from
`self.trades` (Rust evaluates struct-literal fields in source order), so
both durations are always `Duration::zero()`.  In this complete run the
single recorded trade lasted 172800 seconds (2 days: entered at bar 0,
closed at bar 2), yet the reported max and average trade durations are
both 0. -/
theorem trade_duration_bug :
    (runLoop bugCfg bugOrds bugBars).map
      (fun st => st.trades.map (Trade.durationAt 0)) = some [172800] ∧
    (runLoop bugCfg bugOrds bugBars).map
      (fun st => (calculate_results id (fun _ _ => 0) 0 bugCfg bugBars
        st).toOption.map (fun r => (r.max_trade_duration,
          r.avg_trade_duration))) = some (some (0, 0)) := by
  constructor
  · norm_num [runLoop, runLoopFrom, bugOrds, bugCfg, bugBars, wBuy, bugBuy,
      bugSell, stepBar, processOrders, process_order, open_position,
      close_position, Position.new, Position.update_price, Position.value,
      calculate_equity, initState, Trade.new, Trade.close, Trade.durationAt]
  · norm_num [runLoop, runLoopFrom, bugOrds, bugCfg, bugBars, wBuy, bugBuy,
      bugSell, stepBar, processOrders, process_order, open_position,
      close_position, Position.new, Position.update_price, Position.value,
      calculate_equity, initState, Trade.new, Trade.close,
      calculate_results, Except.toOption, List.max?]

/-- Witness for `best_worst_trade_fold` at a concrete input. -/
theorem best_worst_trade_fold_witness :
    (calculate_results id (fun _ _ => 0) 0 wCfg cexData cexWinSt).toOption.map
      (fun r => r.avg_trade) = some 5 := by
  cases hres : calculate_results id (fun _ _ => 0) 0 wCfg cexData cexWinSt with
  | error e =>
      exfalso
      revert hres
      simp only [cexData, cexWinSt, calculate_results]
      intro hres
      exact Except.noConfusion hres
  | ok r =>
      have h := best_worst_trade_fold id (fun _ _ => 0) 0 wCfg cexData cexWinSt
        r hres
      have havg := h.2.2.2 (by simp [cexWinSt])
      simp only [Except.toOption, Option.map]
      rw [havg]
      norm_num [cexWinSt, wTrade, Trade.pl, Trade.is_long]


lemma process_order_equity_curve (cfg : BacktestConfig) (st : BState)
    (o : Order) (bar : OHLCV) :
    (process_order cfg st o bar).equity_curve = st.equity_curve := by
  obtain ⟨pos, cash, curve, trades, bidx, peb⟩ := st
  cases hside : o.side
  case Buy =>
    cases pos with
    | none =>
        simp only [process_order, hside, open_position]
        split <;> split <;> rfl
    | some p =>
        simp only [process_order, hside, open_position]
        split <;> split <;> rfl
  case Sell =>
    cases pos with
    | none => simp only [process_order, hside, close_position]
    | some p =>
        simp only [process_order, hside, close_position]
        split <;> split <;> rfl

lemma processOrders_equity_curve (cfg : BacktestConfig) (bar : OHLCV) :
    ∀ (orders : List Order) (st : BState),
      (processOrders cfg bar st orders).equity_curve = st.equity_curve := by
  intro orders
  induction orders with
  | nil => intro st; rfl
  | cons o rest ih =>
      intro st
      rw [processOrders, List.foldl_cons]
      rw [show List.foldl (fun s o => process_order cfg s o bar)
            (process_order cfg st o bar) rest =
          processOrders cfg bar (process_order cfg st o bar) rest from rfl]
      rw [ih, process_order_equity_curve]

lemma stepBar_curve (cfg : BacktestConfig) (st : BState) (bar : OHLCV)
    (index : Nat) (orders : List Order) :
    (stepBar cfg st bar index orders).equity_curve =
      st.equity_curve ++ [(bar.timestamp,
        calculate_equity (stepBar cfg st bar index orders))] := by
  have hpo := processOrders_equity_curve cfg bar orders
    { st with current_bar_index := index }
  simp only [stepBar, calculate_equity]
  rw [hpo]

lemma stepBar_position_price (cfg : BacktestConfig) (st : BState)
    (bar : OHLCV) (index : Nat) (orders : List Order) :
    ∀ p, (stepBar cfg st bar index orders).current_position = some p →
      p.current_price = bar.close := by
  intro p hp
  simp only [stepBar] at hp
  rw [Option.map_eq_some'] at hp
  obtain ⟨q, _, rfl⟩ := hp
  rfl

lemma runLoopFrom_curve (cfg : BacktestConfig)
    (ords : Nat → Option (List Order)) :
    ∀ (data : List OHLCV) (idx : Nat) (st st' : BState),
      runLoopFrom cfg ords data idx st = some st' →
      ∃ tail : List (Time × ℚ),
        st'.equity_curve = st.equity_curve ++ tail ∧
        tail.length = data.length ∧
        ∀ k (hk : k < data.length),
          ∃ stk, runLoopFrom cfg ords (data.take (k + 1)) idx st = some stk ∧
            tail[k]? = some ((data.get ⟨k, hk⟩).timestamp,
              calculate_equity stk) ∧
            ∀ p, stk.current_position = some p →
              p.current_price = (data.get ⟨k, hk⟩).close := by
  intro data
  induction data with
  | nil =>
      intro idx st st' h
      simp only [runLoopFrom, Option.some.injEq] at h
      subst h
      exact ⟨[], by simp, rfl, fun k hk => absurd hk (Nat.not_lt_zero k)⟩
  | cons bar rest ih =>
      intro idx st st' h
      rw [runLoopFrom] at h
      cases hor : ords idx with
      | none => rw [hor] at h; exact absurd h (by simp)
      | some orders =>
          rw [hor] at h
          obtain ⟨tail', hcurve', hlen', hk'⟩ :=
            ih (idx + 1) (stepBar cfg st bar idx orders) st' h
          refine ⟨(bar.timestamp,
              calculate_equity (stepBar cfg st bar idx orders)) :: tail',
            ?_, ?_, ?_⟩
          · rw [hcurve', stepBar_curve]
            simp
          · simp [hlen']
          · intro k hk
            cases k with
            | zero =>
                refine ⟨stepBar cfg st bar idx orders, ?_, ?_, ?_⟩
                · simp [runLoopFrom, hor]
                · simp
                · exact stepBar_position_price cfg st bar idx orders
            | succ k =>
                have hk2 : k < rest.length := by simpa using hk
                obtain ⟨stk, h1, h2, h3⟩ := hk' k hk2
                refine ⟨stk, ?_, ?_, ?_⟩
                · rw [List.take_succ_cons, runLoopFrom, hor]
                  exact h1
                · simpa using h2
                · simpa using h3

/-- Claim C4: when the bar loop of `run` completes, the equity curve has
exactly one entry per bar, in order; the k-th entry carries the k-th bar's
timestamp and the value `calculate_equity` of the engine state at the end of
that bar (cash plus the open position's size × mark price, cash alone when
flat), the open position's mark price having been set to that bar's close. -/
theorem equity_curve_per_bar (cfg : BacktestConfig)
    (ords : Nat → Option (List Order)) (data : List OHLCV) (st' : BState)
    (h : runLoop cfg ords data = some st') :
    st'.equity_curve.length = data.length ∧
    ∀ k (hk : k < data.length),
      ∃ stk, runLoop cfg ords (data.take (k + 1)) = some stk ∧
        st'.equity_curve[k]? = some ((data.get ⟨k, hk⟩).timestamp,
          calculate_equity stk) ∧
        ∀ p, stk.current_position = some p →
          p.current_price = (data.get ⟨k, hk⟩).close := by
  obtain ⟨tail, hcurve, hlen, hk⟩ := runLoopFrom_curve cfg ords data 0
    (initState cfg) st' h
  have hcurve' : st'.equity_curve = tail := by
    rw [hcurve]
    simp [initState]
  constructor
  · rw [hcurve', hlen]
  · intro k hklt
    obtain ⟨stk, h1, h2, h3⟩ := hk k hklt
    exact ⟨stk, h1, by rw [hcurve']; exact h2, h3⟩

/-- Second bar (close 60) for the `equity_curve_per_bar` witness run. -/
def wBar2 : OHLCV :=
  { timestamp := 86400, opn := 60, high := 60, low := 60, close := 60,
    volume := 0 }

/-- Witness for `equity_curve_per_bar` at a concrete input. -/
theorem equity_curve_per_bar_witness :
    (runLoop wCfg wOrds [wBar, wBar2]).map
      (fun st => st.equity_curve.length) = some 2 := by
  cases hres : runLoop wCfg wOrds [wBar, wBar2] with
  | none =>
      exfalso
      revert hres
      simp only [runLoop, runLoopFrom, wOrds]
      intro hres
      exact Option.noConfusion hres
  | some st =>
      have h := (equity_curve_per_bar wCfg wOrds [wBar, wBar2] st hres).1
      simp [Option.map, h]


end Backtesting
